import Mathlib

/-!
Verification of the retrieval-augmented-answering core of the AI booking
assistant (`app/rag_pipeline.py`, with the sentinel check of `app/tools.py`).

Modelling conventions:
- Python strings are modelled as `List Char` (`Str`); `len` is `List.length`.
- Embedding vectors (float32 in the code) are modelled with exact rationals,
  so that squared-L2 distances and their comparisons are exact and decidable.
- The FAISS `IndexFlatL2` index and the langchain text splitter are external
  libraries: their behaviour is modelled from the spec (see the doc comments
  of `searchIndex` and `chunkWindows`).
- Python `raise`/`try/except` is modelled with `Except`: a function that can
  raise returns the unchanged state paired with an `Except.error`.
- Streamlit session state (`vector_store`, `chunks`, `chunk_embeddings`) is
  the record `PipelineState`, passed explicitly.
-/

namespace RAG

/-- Python strings, modelled as lists of characters. -/
abbrev Str := List Char

/-- `CHUNK_SIZE` from `app/config.py`. -/
def CHUNK_SIZE : Nat := 1000

/-- `CHUNK_OVERLAP` from `app/config.py`. -/
def CHUNK_OVERLAP : Nat := 200

/-- `TOP_K_CHUNKS` from `app/config.py`. -/
def TOP_K_CHUNKS : Nat := 8

/-- Modelled from the spec: the Chunker (`RecursiveCharacterTextSplitter` from
langchain, an external library not in this repository) splits text into
windows targeting `size` characters, consecutive windows overlapping by
`overlap` characters (stride `size - overlap`); empty or whitespace-only text
yields the empty sequence, never an error (spec §4.2). -/
def chunkWindows (text : Str) (size overlap : Nat) : List Str :=
  if text.all Char.isWhitespace then []
  else
    let stride := size - overlap
    let n := if text.length ≤ size then 1
             else 1 + (text.length - size + stride - 1) / stride
    (List.range n).map (fun i => (text.drop (i * stride)).take size)

/-- `RAGPipeline.chunk_text` (`app/rag_pipeline.py:45`): split text into
chunks using the configured size and overlap. -/
def chunk_text (text : Str) : List Str :=
  chunkWindows text CHUNK_SIZE CHUNK_OVERLAP

/-- The mutable session state owned by the pipeline (`app/rag_pipeline.py:27`):
`st.session_state.vector_store` (the FAISS index, modelled by the list of
vectors it stores, in insertion order), `st.session_state.chunks`, and
`st.session_state.chunk_embeddings`. -/
structure PipelineState where
  vector_store : Option (List (List ℚ))
  chunks : List Str
  chunk_embeddings : Option (List (List ℚ))
deriving Repr, DecidableEq

/-- The state installed by `RAGPipeline.__init__` when no corpus exists
(`app/rag_pipeline.py:27`): no index, no chunks, no embeddings. -/
def initState : PipelineState :=
  { vector_store := none, chunks := [], chunk_embeddings := none }

/-- `RAGPipeline.build_vector_store` (`app/rag_pipeline.py:60`): if the chunk
list is empty it returns without touching the state; otherwise it creates a
fresh `IndexFlatL2`, adds the embeddings to it, and stores index, chunks and
embeddings in the session state. -/
def build_vector_store (st : PipelineState) (chunks : List Str)
    (embeddings : List (List ℚ)) : PipelineState :=
  if chunks.length = 0 then st
  else { vector_store := some embeddings, chunks := chunks,
         chunk_embeddings := some embeddings }

/-- `RAGPipeline.create_embeddings` (`app/rag_pipeline.py:55`): one embedding
vector per chunk, produced by the (external) embedding model `embed`. -/
def create_embeddings (embed : Str → List ℚ) (chunks : List Str) :
    List (List ℚ) :=
  chunks.map embed

/-- The observable outcome of `extract_text_from_pdf` on one uploaded file:
either the extracted text, or the per-document extraction exception
(`app/rag_pipeline.py:32`). -/
abbrev Doc := Except Unit Str

/-- Errors `process_pdfs` can raise: `"No text could be extracted from the
PDFs"` (`app/rag_pipeline.py:94`), the spec's `NoExtractableContent`. -/
inductive PError where
  | noExtractableContent
deriving Repr, DecidableEq

/-- The accumulation loop of `RAGPipeline.process_pdfs`
(`app/rag_pipeline.py:78`): for each file, extract and chunk; on a
per-document exception, report and continue; chunks of successful documents
are appended in input order. -/
def collect_chunks : List Doc → List Str
  | [] => []
  | Except.ok text :: rest => chunk_text text ++ collect_chunks rest
  | Except.error _ :: rest => collect_chunks rest

/-- `RAGPipeline.process_pdfs` (`app/rag_pipeline.py:73`): accumulate chunks
over all documents; if none were gathered, raise (state untouched); otherwise
embed them, build the vector store, and return the chunk count. The returned
pair is (session state after the call, result or raised error). -/
def process_pdfs (embed : Str → List ℚ) (st : PipelineState)
    (docs : List Doc) : PipelineState × Except PError Nat :=
  let all_chunks := collect_chunks docs
  if all_chunks.length = 0 then (st, Except.error PError.noExtractableContent)
  else
    let embeddings := create_embeddings embed all_chunks
    (build_vector_store st all_chunks embeddings, Except.ok all_chunks.length)

/-- Squared Euclidean (L2) distance between two vectors, the metric of
`faiss.IndexFlatL2`. -/
def sqDist (v w : List ℚ) : ℚ :=
  ((v.zip w).map (fun p => (p.1 - p.2) ^ 2)).sum

/-- Insert a (stored-position, distance) pair into a list sorted by ascending
distance, placing it before the first entry of greater-or-equal distance. -/
def insertByDist (p : Nat × ℚ) : List (Nat × ℚ) → List (Nat × ℚ)
  | [] => [p]
  | q :: rest => if p.2 ≤ q.2 then p :: q :: rest else q :: insertByDist p rest

/-- Stable insertion sort by ascending distance: entries are consumed left to
right, and an entry is inserted before every later entry of equal distance,
so among equal distances the earlier-inserted vector comes first. -/
def sortByDist : List (Nat × ℚ) → List (Nat × ℚ)
  | [] => []
  | p :: rest => insertByDist p (sortByDist rest)

/-- The (stored-position, distance-to-query) pairs of a stored vector list,
in insertion order. A missing row (never reached: positions come from
`List.range`) reads as the empty vector. -/
def distPairs (vs : List (List ℚ)) (q : List ℚ) : List (Nat × ℚ) :=
  (List.range vs.length).map (fun i => (i, sqDist (vs.getD i []) q))

/-- Modelled from the spec: `faiss.IndexFlatL2.search` (external library, not
in this repository) performs exact nearest-neighbour search — it returns the
`k` stored vectors of smallest squared-L2 distance to the query, ordered by
ascending distance, ties broken by insertion order (spec §4.4). -/
def searchIndex (vs : List (List ℚ)) (q : List ℚ) (k : Nat) :
    List (Nat × ℚ) :=
  (sortByDist (distPairs vs q)).take k

/-- The chunk-lookup comprehension of `retrieve_relevant_chunks`
(`app/rag_pipeline.py:123`): map each returned index back to its chunk;
`none` models the `IndexError` an out-of-range index would raise (caught by
the surrounding `try`). -/
def lookupChunks (chunks : List Str) : List (Nat × ℚ) → Option (List Str)
  | [] => some []
  | p :: rest =>
    match chunks[p.1]?, lookupChunks chunks rest with
    | some c, some cs => some (c :: cs)
    | _, _ => none

/-- `RAGPipeline.retrieve_relevant_chunks` (`app/rag_pipeline.py:105`): if no
vector store or no chunks, return `[]`; otherwise embed the query (`embedq`,
fallible: the model call sits inside `try`), search the index with
`k = min(top_k, len(chunks))`, and map indices back to chunks. Any exception
in the `try` block (embedding failure, out-of-range index) is caught and
yields `[]`. -/
def retrieve_relevant_chunks (embedq : Str → Except Unit (List ℚ))
    (st : PipelineState) (query : Str) (top_k : Nat) : List Str :=
  match st.vector_store with
  | none => []
  | some index =>
    if st.chunks.length = 0 then []
    else
      match embedq query with
      | Except.error _ => []
      | Except.ok query_vector =>
        let k := min top_k st.chunks.length
        match lookupChunks st.chunks (searchIndex index query_vector k) with
        | some cs => cs
        | none => []

/-- The sentinel string of `get_context_for_query` (`app/rag_pipeline.py:136`). -/
def noInfoSentinel : Str :=
  "No relevant information found in the uploaded documents.".data

/-- One labelled chunk, `f"[Context {i}]: {chunk}"` with `i` the 1-based rank
(`app/rag_pipeline.py:138`). -/
def labelChunk (i : Nat) (c : Str) : Str :=
  "[Context ".data ++ (toString i).data ++ "]: ".data ++ c

/-- Python `sep.join(parts)`: parts concatenated with `sep` between
consecutive parts. -/
def joinSep (sep : Str) : List Str → Str
  | [] => []
  | [x] => x
  | x :: y :: rest => x ++ sep ++ joinSep sep (y :: rest)

/-- The context-assembly step of `get_context_for_query`
(`app/rag_pipeline.py:135`): the sentinel on an empty chunk list, otherwise
the rank-labelled chunks joined by blank lines (the spec's
`ContextAssembler.assemble`, §4.6). -/
def assemble (chunks : List Str) : Str :=
  if chunks = [] then noInfoSentinel
  else joinSep "\n\n".data (chunks.enum.map (fun p => labelChunk (p.1 + 1) p.2))

/-- `RAGPipeline.get_context_for_query` (`app/rag_pipeline.py:129`): retrieve
with the configured `TOP_K_CHUNKS`, then assemble. -/
def get_context_for_query (embedq : Str → Except Unit (List ℚ))
    (st : PipelineState) (query : Str) : Str :=
  assemble (retrieve_relevant_chunks embedq st query TOP_K_CHUNKS)

/-- Errors of the spec's `VectorIndex.build` (spec §4.4). -/
inductive VError where
  | emptyCorpus
deriving Repr, DecidableEq

/-- Modelled from the spec's words (§4.4), for comparison with the code's
`build_vector_store`: `build(vectors)` replaces any prior index, and fails
with `EmptyCorpus` if `vectors` is empty. -/
def build_spec (chunks : List Str) (embeddings : List (List ℚ)) :
    Except VError PipelineState :=
  if embeddings.length = 0 then Except.error VError.emptyCorpus
  else Except.ok { vector_store := some embeddings, chunks := chunks,
                   chunk_embeddings := some embeddings }

/-- The spec's description of labelling (§4.6), written as direct recursion
carrying the 1-based rank, for comparison with the code's
`enumerate`-and-format comprehension. -/
def specLabeled (i : Nat) : List Str → List Str
  | [] => []
  | c :: rest => labelChunk i c :: specLabeled (i + 1) rest

/-- The alignment invariant (spec §3): either no corpus has been built (no
index, no chunks, no embedding matrix), or the index, the chunk list and the
embedding matrix are parallel — same length, and row `i` of the index is row
`i` of the embedding matrix, the embedding of chunk `i`. -/
def aligned (st : PipelineState) : Prop :=
  (st.vector_store = none ∧ st.chunk_embeddings = none ∧ st.chunks = []) ∨
  (∃ idx emb, st.vector_store = some idx ∧ st.chunk_embeddings = some emb ∧
    idx = emb ∧ idx.length = st.chunks.length)

/-- A Ready pipeline (spec §4.5): a corpus of `n > 0` chunks has been built,
with the index over the chunks' embeddings. -/
def ready (st : PipelineState) : Prop :=
  ∃ idx, st.vector_store = some idx ∧ idx.length = st.chunks.length ∧
    0 < st.chunks.length

/-- Search-result entry `a` is ranked strictly before entry `b`: smaller
distance, or equal distance and earlier insertion position. -/
def rankBefore (a b : Nat × ℚ) : Prop :=
  a.2 < b.2 ∨ (a.2 = b.2 ∧ a.1 < b.1)

/-! ### Helper lemmas about the search structure -/

theorem mem_insertByDist {x p : Nat × ℚ} {l : List (Nat × ℚ)}
    (h : x ∈ insertByDist p l) : x = p ∨ x ∈ l := by
  induction l with
  | nil => simpa [insertByDist] using h
  | cons q rest ih =>
    rw [insertByDist] at h
    by_cases hle : p.2 ≤ q.2
    · rw [if_pos hle] at h
      rcases List.mem_cons.mp h with rfl | h
      · exact Or.inl rfl
      · exact Or.inr h
    · rw [if_neg hle] at h
      rcases List.mem_cons.mp h with rfl | h
      · exact Or.inr (List.mem_cons_self x rest)
      · rcases ih h with h | h
        · exact Or.inl h
        · exact Or.inr (List.mem_cons_of_mem q h)

theorem length_insertByDist (p : Nat × ℚ) (l : List (Nat × ℚ)) :
    (insertByDist p l).length = l.length + 1 := by
  induction l with
  | nil => rfl
  | cons q rest ih =>
    rw [insertByDist]
    split <;> simp [ih]

theorem mem_sortByDist {x : Nat × ℚ} {l : List (Nat × ℚ)}
    (h : x ∈ sortByDist l) : x ∈ l := by
  induction l with
  | nil => simp [sortByDist] at h
  | cons p rest ih =>
    rw [sortByDist] at h
    rcases mem_insertByDist h with h | h
    · exact h ▸ List.mem_cons_self p rest
    · exact List.mem_cons_of_mem p (ih h)

theorem length_sortByDist (l : List (Nat × ℚ)) :
    (sortByDist l).length = l.length := by
  induction l with
  | nil => rfl
  | cons p rest ih => rw [sortByDist, length_insertByDist, ih, List.length_cons]

theorem pairwise_insertByDist {p : Nat × ℚ} {l : List (Nat × ℚ)}
    (hl : l.Pairwise rankBefore) (hp : ∀ q ∈ l, p.1 < q.1) :
    (insertByDist p l).Pairwise rankBefore := by
  induction l with
  | nil => simp [insertByDist, List.pairwise_singleton]
  | cons q rest ih =>
    rw [insertByDist]
    rcases List.pairwise_cons.mp hl with ⟨hq, hrest⟩
    split
    · rename_i hle
      refine List.pairwise_cons.mpr ⟨?_, hl⟩
      intro r hr
      rcases List.mem_cons.mp hr with rfl | hr
      · rcases lt_or_eq_of_le hle with hlt | heq
        · exact Or.inl hlt
        · exact Or.inr ⟨heq, hp r (List.mem_cons_self r rest)⟩
      · have hqr := hq r hr
        have hq2r : q.2 ≤ r.2 := by
          rcases hqr with h | ⟨h, _⟩
          · exact le_of_lt h
          · exact le_of_eq h
        rcases lt_or_eq_of_le hle with hlt | heq
        · exact Or.inl (lt_of_lt_of_le hlt hq2r)
        · rcases lt_or_eq_of_le hq2r with hlt | heq2
          · exact Or.inl (heq ▸ hlt)
          · exact Or.inr ⟨heq.trans heq2, hp r (List.mem_cons_of_mem q hr)⟩
    · rename_i hgt
      push_neg at hgt
      refine List.pairwise_cons.mpr ⟨?_, ?_⟩
      · intro r hr
        rcases mem_insertByDist hr with rfl | hr
        · exact Or.inl hgt
        · exact hq r hr
      · exact ih hrest (fun r hr => hp r (List.mem_cons_of_mem q hr))

theorem pairwise_sortByDist {l : List (Nat × ℚ)}
    (h : l.Pairwise (fun a b => a.1 < b.1)) :
    (sortByDist l).Pairwise rankBefore := by
  induction l with
  | nil => simp [sortByDist]
  | cons p rest ih =>
    rcases List.pairwise_cons.mp h with ⟨hp, hrest⟩
    rw [sortByDist]
    exact pairwise_insertByDist (ih hrest) (fun q hq => hp q (mem_sortByDist hq))

theorem length_distPairs (vs : List (List ℚ)) (q : List ℚ) :
    (distPairs vs q).length = vs.length := by
  simp [distPairs]

theorem pairwise_fst_distPairs (vs : List (List ℚ)) (q : List ℚ) :
    (distPairs vs q).Pairwise (fun a b => a.1 < b.1) := by
  refine List.Pairwise.map _ ?_ (List.pairwise_lt_range vs.length)
  intro a b hab
  exact hab

theorem mem_distPairs {vs : List (List ℚ)} {q : List ℚ} {p : Nat × ℚ}
    (h : p ∈ distPairs vs q) :
    p.1 < vs.length ∧ p.2 = sqDist (vs.getD p.1 []) q := by
  rcases List.mem_map.mp h with ⟨i, hi, rfl⟩
  exact ⟨List.mem_range.mp hi, rfl⟩

theorem length_searchIndex (vs : List (List ℚ)) (q : List ℚ) (k : Nat) :
    (searchIndex vs q k).length = min k vs.length := by
  rw [searchIndex, List.length_take, length_sortByDist, length_distPairs]

theorem pairwise_searchIndex (vs : List (List ℚ)) (q : List ℚ) (k : Nat) :
    (searchIndex vs q k).Pairwise rankBefore :=
  (pairwise_sortByDist (pairwise_fst_distPairs vs q)).sublist
    (List.take_sublist k _)

theorem mem_searchIndex {vs : List (List ℚ)} {q : List ℚ} {k : Nat}
    {p : Nat × ℚ} (h : p ∈ searchIndex vs q k) :
    p.1 < vs.length ∧ p.2 = sqDist (vs.getD p.1 []) q :=
  mem_distPairs (mem_sortByDist (List.take_subset k _ h))

theorem lookupChunks_eq_some {chunks : List Str} {res : List (Nat × ℚ)}
    (h : ∀ p ∈ res, p.1 < chunks.length) :
    ∃ cs, lookupChunks chunks res = some cs ∧ cs.length = res.length := by
  induction res with
  | nil => exact ⟨[], rfl, rfl⟩
  | cons p rest ih =>
    rcases ih (fun q hq => h q (List.mem_cons_of_mem p hq)) with ⟨cs, hcs, hlen⟩
    have hp : p.1 < chunks.length := h p (List.mem_cons_self p rest)
    rcases List.getElem?_eq_some.mpr ⟨hp, rfl⟩ with hget
    refine ⟨chunks[p.1] :: cs, ?_, by simp [hlen]⟩
    rw [lookupChunks, hget, hcs]

/-- A sample Ready state: one chunk `"a"` with embedding `[1]`, index built
over it. Used to instantiate hypotheses of the theorems below. -/
def sampleReady : PipelineState :=
  { vector_store := some [[1]], chunks := [['a']],
    chunk_embeddings := some [[1]] }

/-- Per-document chunk lists in input order: the chunks of each successfully
extracted document, the empty list for each failed document. -/
def successfulChunks (docs : List Doc) : List (List Str) :=
  docs.map (fun d => match d with
    | Except.ok t => chunk_text t
    | Except.error _ => [])

theorem collect_chunks_eq_join (docs : List Doc) :
    collect_chunks docs = (successfulChunks docs).flatten := by
  induction docs with
  | nil => rfl
  | cons d rest ih =>
    cases d with
    | ok t => simp [collect_chunks, successfulChunks, ih]
    | error e => simp [collect_chunks, successfulChunks, ih]

theorem retrieve_embed_error (embedq : Str → Except Unit (List ℚ))
    (st : PipelineState) (query : Str) (top_k : Nat)
    (h : embedq query = Except.error ()) :
    retrieve_relevant_chunks embedq st query top_k = [] := by
  rw [retrieve_relevant_chunks]
  cases hv : st.vector_store with
  | none => rfl
  | some index =>
    by_cases hc : st.chunks.length = 0
    · simp [hc]
    · simp [hc, h]

/-! ### Claim theorems -/

/-- C1: for every query `q` and every `k > 0`, on a Ready pipeline (a corpus
of `n > 0` chunks built, index aligned with the chunk list) with a successful
query embedding, `retrieve` returns exactly `min k n` chunks; on an Empty
pipeline (no vector store built) it returns the empty list — and, the model
being a total function, it raises no error. -/
theorem retrieve_count_bound (embedq : Str → Except Unit (List ℚ))
    (st : PipelineState) (query : Str) (k : Nat) (_hk : 0 < k) :
    (∀ qv, ready st → embedq query = Except.ok qv →
      (retrieve_relevant_chunks embedq st query k).length =
        min k st.chunks.length) ∧
    (st.vector_store = none →
      retrieve_relevant_chunks embedq st query k = []) := by
  constructor
  · intro qv hready hq
    obtain ⟨idx, hidx, hlen, hpos⟩ := hready
    have hmem : ∀ p ∈ searchIndex idx qv (min k st.chunks.length),
        p.1 < st.chunks.length := by
      intro p hp
      have h1 := (mem_searchIndex hp).1
      omega
    rcases lookupChunks_eq_some hmem with ⟨cs, hcs, hcslen⟩
    have hne : ¬ st.chunks.length = 0 := by omega
    simp only [retrieve_relevant_chunks, hidx, hq, if_neg hne, hcs]
    rw [hcslen, length_searchIndex, hlen]
    omega
  · intro hnone
    rw [retrieve_relevant_chunks, hnone]

/-- Witness for C1: a concrete Ready corpus of one chunk, `k = 1`,
successful embedding: exactly `min 1 1 = 1` chunk comes back; and the Empty
pipeline returns `[]`. -/
theorem retrieve_count_bound_witness :
    (retrieve_relevant_chunks (fun _ => Except.ok [(0 : ℚ)]) sampleReady
      [] 1).length = min 1 sampleReady.chunks.length ∧
    retrieve_relevant_chunks (fun _ => Except.ok [(0 : ℚ)]) initState [] 1
      = [] :=
  ⟨(retrieve_count_bound (fun _ => Except.ok [(0 : ℚ)]) sampleReady [] 1
      (by decide)).1 [0] ⟨[[1]], rfl, rfl, by decide⟩ rfl,
   (retrieve_count_bound (fun _ => Except.ok [(0 : ℚ)]) initState [] 1
      (by decide)).2 rfl⟩

/-- C2: for every built corpus (stored vector list) and every query vector,
`search` returns results ordered by ascending squared-L2 distance to the
query, equal distances ranked by insertion order (`rankBefore` holds between
consecutive results), and every returned pair carries the true squared-L2
distance of the stored vector at its position. The search structure is
modelled from the spec (exact FAISS `IndexFlatL2` search). -/
theorem search_ordered_by_distance (vs : List (List ℚ)) (q : List ℚ)
    (k : Nat) :
    (searchIndex vs q k).Pairwise rankBefore ∧
    ∀ p ∈ searchIndex vs q k,
      p.1 < vs.length ∧ p.2 = sqDist (vs.getD p.1 []) q :=
  ⟨pairwise_searchIndex vs q k, fun _ hp => mem_searchIndex hp⟩

/-- Witness for C2: a three-vector corpus at distances `0 < 1 < 4` from the
query; the top result is the vector at distance `0`, and the theorem applied
to it returns its true distance. -/
theorem search_ordered_by_distance_witness :
    (0, (0 : ℚ)) ∈ searchIndex [[(0 : ℚ)], [1], [2]] [0] 3 ∧
    (0 < 3 ∧ (0 : ℚ) = sqDist (([[(0 : ℚ)], [1], [2]]).getD 0 []) [0]) := by
  have hmem : (0, (0 : ℚ)) ∈ searchIndex [[(0 : ℚ)], [1], [2]] [0] 3 := by
    simp [searchIndex, distPairs, sortByDist, insertByDist, sqDist]
  exact ⟨hmem,
    (search_ordered_by_distance [[(0 : ℚ)], [1], [2]] [0] 3).2 _ hmem⟩

/-- C8: every chunk produced by the chunker, for every text and every
`(size, overlap)` configuration, has length at most `size` — in fact
including the final chunk, which is stronger than the claim's "except
possibly the final chunk". -/
theorem chunk_length_le (text : Str) (size overlap : Nat) (c : Str)
    (hc : c ∈ chunkWindows text size overlap) : c.length ≤ size := by
  rw [chunkWindows] at hc
  by_cases hw : text.all Char.isWhitespace
  · rw [if_pos hw] at hc
    simp at hc
  · rw [if_neg hw] at hc
    rcases List.mem_map.mp hc with ⟨i, _, rfl⟩
    simp

/-- Witness for C8: chunking `"abc"` with `size = 2`, `overlap = 1` yields
`["ab", "bc"]`; the member `"ab"` has length at most `2`. -/
theorem chunk_length_le_witness : "ab".data.length ≤ 2 :=
  chunk_length_le "abc".data 2 1 "ab".data (by decide)

/-- C3: if the chunks accumulated across the whole batch are empty (the empty
batch and batches whose documents yield no extractable text included),
`ingest` fails with `NoExtractableContent` — the model's only error, so never
a different failure — and the session state is returned exactly as it was:
Empty stays Empty, a prior Ready corpus is untouched. -/
theorem ingest_empty_fails (embed : Str → List ℚ) (st : PipelineState)
    (docs : List Doc) (h : collect_chunks docs = []) :
    process_pdfs embed st docs =
      (st, Except.error PError.noExtractableContent) := by
  simp [process_pdfs, h]

/-- Witness for C3: the empty batch, and a batch of one document whose
extracted text is empty, both fail with `NoExtractableContent`, leaving the
Empty state and a Ready state untouched respectively. -/
theorem ingest_empty_fails_witness :
    process_pdfs (fun _ => [0]) initState [] =
      (initState, Except.error PError.noExtractableContent) ∧
    process_pdfs (fun _ => [0]) sampleReady [Except.ok []] =
      (sampleReady, Except.error PError.noExtractableContent) :=
  ⟨ingest_empty_fails (fun _ => [0]) initState [] rfl,
   ingest_empty_fails (fun _ => [0]) sampleReady [Except.ok []] (by decide)⟩

/-- C7: a batch in which at least one document fails extraction but whose
remaining documents yield at least one chunk does not abort: `ingest`
succeeds, the new corpus is exactly the concatenation, in input order, of the
chunk lists of the successfully extracted documents (failed documents
contribute nothing), and the returned count is the total number of those
chunks. -/
theorem ingest_tolerates_per_doc_failure (embed : Str → List ℚ)
    (st : PipelineState) (docs : List Doc)
    (_hfail : Except.error () ∈ docs) (hne : collect_chunks docs ≠ []) :
    process_pdfs embed st docs =
      ({ vector_store := some ((collect_chunks docs).map embed),
         chunks := collect_chunks docs,
         chunk_embeddings := some ((collect_chunks docs).map embed) },
       Except.ok (collect_chunks docs).length) ∧
    collect_chunks docs = (successfulChunks docs).flatten := by
  have h0 : ¬ (collect_chunks docs).length = 0 := by
    simpa [List.length_eq_zero] using hne
  refine ⟨?_, collect_chunks_eq_join docs⟩
  simp [process_pdfs, create_embeddings, build_vector_store, h0]

/-- Witness for C7: a batch of a failing document followed by a document with
text `"abc"`: ingestion succeeds with the single chunk `"abc"`, count 1. -/
theorem ingest_tolerates_per_doc_failure_witness :
    process_pdfs (fun _ => [0]) initState
      [Except.error (), Except.ok "abc".data] =
      ({ vector_store := some [[0]], chunks := ["abc".data],
         chunk_embeddings := some [[0]] }, Except.ok 1) ∧
    collect_chunks [Except.error (), Except.ok "abc".data] =
      (successfulChunks [Except.error (), Except.ok "abc".data]).flatten := by
  have h := ingest_tolerates_per_doc_failure (fun _ => [0]) initState
    [Except.error (), Except.ok "abc".data]
    (List.mem_cons_self _ _) (by decide)
  have hc : collect_chunks [Except.error (), Except.ok "abc".data] =
      ["abc".data] := by decide
  refine ⟨?_, h.2⟩
  rw [h.1, hc]
  simp

/-- Counterexample for C4: at the concrete empty input, the code's
`build_vector_store` does not fail at all — it silently returns the session
state unchanged (here, a prior Ready corpus survives untouched) — whereas the
spec's `build` (`build_spec`, modelled from the spec's words) fails with
`EmptyCorpus`. -/
theorem build_empty_does_not_fail :
    build_vector_store sampleReady [] [] = sampleReady ∧
    build_spec [] [] = Except.error VError.emptyCorpus :=
  ⟨rfl, rfl⟩

/-- C4 (amended): on an empty chunk list, `build_vector_store` is a silent
no-op — the prior index and state are preserved and no error is raised;
otherwise it replaces any prior index with a new index over exactly the given
embedding vectors (and stores the given chunks and embeddings alongside). -/
theorem build_replaces_or_noop (st : PipelineState) (chunks : List Str)
    (embeddings : List (List ℚ)) :
    (chunks = [] → build_vector_store st chunks embeddings = st) ∧
    (chunks ≠ [] → build_vector_store st chunks embeddings =
      { vector_store := some embeddings, chunks := chunks,
        chunk_embeddings := some embeddings }) := by
  constructor
  · intro h
    simp [build_vector_store, h]
  · intro h
    simp [build_vector_store, List.length_eq_zero, h]

/-- Witness for C4 (amended): building over a Ready state with an empty chunk
list preserves it; with one chunk, the new index replaces the old one. -/
theorem build_replaces_or_noop_witness :
    build_vector_store sampleReady [] [[(2 : ℚ)]] = sampleReady ∧
    build_vector_store sampleReady [['b']] [[(2 : ℚ)]] =
      { vector_store := some [[(2 : ℚ)]], chunks := [['b']],
        chunk_embeddings := some [[(2 : ℚ)]] } :=
  ⟨(build_replaces_or_noop sampleReady [] [[(2 : ℚ)]]).1 rfl,
   (build_replaces_or_noop sampleReady [['b']] [[(2 : ℚ)]]).2 (by decide)⟩

theorem joinSep_cons (sep x : Str) (xs : List Str) :
    ∃ t, joinSep sep (x :: xs) = x ++ t := by
  cases xs with
  | nil => exact ⟨[], by simp [joinSep]⟩
  | cons y rest => exact ⟨sep ++ joinSep sep (y :: rest), by simp [joinSep]⟩

theorem labelChunk_one_head (c : Str) :
    labelChunk 1 c = '[' :: ("Context 1]: ".data ++ c) := rfl

/-- Counterexample for C5: a retrieved chunk whose text is the sentinel
phrase itself makes the sentinel a substring of the assembled output of a
non-empty chunk sequence — `assemble [sentinel]` is
`"[Context 1]: " ++ sentinel` — so substring matching against the sentinel
(as `RAGTool.execute` does at `app/tools.py:57`) mistakes real output for it. -/
theorem sentinel_substring_of_real_output :
    [noInfoSentinel] ≠ ([] : List Str) ∧
    ∃ s t, assemble [noInfoSentinel] = s ++ noInfoSentinel ++ t := by
  refine ⟨by decide, "[Context 1]: ".data, [], ?_⟩
  decide

/-- C5 (amended): the sentinel is never *equal* to the output of `assemble`
on a non-empty chunk sequence — every such output starts with the label
`"[Context 1]: "` — so a caller can reliably distinguish the two by equality
comparison; but the sentinel can occur as a *substring* of real output (see
the counterexample), so substring matching is not reliable. -/
theorem assemble_nonempty_ne_sentinel (chunks : List Str)
    (h : chunks ≠ []) : assemble chunks ≠ noInfoSentinel := by
  cases chunks with
  | nil => exact absurd rfl h
  | cons c rest =>
    rw [assemble, if_neg (List.cons_ne_nil c rest)]
    have henum : ((c :: rest).enum.map (fun p => labelChunk (p.1 + 1) p.2)) =
        labelChunk 1 c ::
          (rest.enumFrom 1).map (fun p => labelChunk (p.1 + 1) p.2) := rfl
    rw [henum]
    rcases joinSep_cons "\n\n".data (labelChunk 1 c) _ with ⟨t, ht⟩
    rw [ht, labelChunk_one_head]
    intro heq
    have hs : noInfoSentinel =
        'N' :: "o relevant information found in the uploaded documents.".data :=
      rfl
    rw [hs, List.cons_append] at heq
    injection heq with h1 _
    exact absurd h1 (by decide)

/-- Witness for C5 (amended): the one-chunk sequence `["x"]` assembles to a
string different from the sentinel. -/
theorem assemble_nonempty_ne_sentinel_witness :
    assemble ["x".data] ≠ noInfoSentinel :=
  assemble_nonempty_ne_sentinel ["x".data] (by decide)

theorem enumFrom_labeled (l : List Str) (n : Nat) :
    (l.enumFrom n).map (fun p => labelChunk (p.1 + 1) p.2) =
      specLabeled (n + 1) l := by
  induction l generalizing n with
  | nil => rfl
  | cons c rest ih => simp [List.enumFrom, specLabeled, ih]

/-- C6: `assemble` on a non-empty chunk sequence returns the chunks in the
given rank order, the `i`-th prefixed with its 1-based rank label
(`specLabeled 1`, the spec's `[Context i]` labelling written as direct
recursion on the rank), consecutive entries joined by a blank line
(`joinSep "\n\n"`); on the empty sequence it returns the fixed sentinel. -/
theorem assemble_formats_ranked (chunks : List Str) :
    assemble chunks = if chunks = [] then noInfoSentinel
      else joinSep "\n\n".data (specLabeled 1 chunks) := by
  rw [assemble]
  by_cases h : chunks = []
  · rw [if_pos h, if_pos h]
  · rw [if_neg h, if_neg h]
    congr 1
    exact enumFrom_labeled chunks 0

/-- C9: the alignment invariant — either no corpus (no index, no chunks, no
embedding matrix) or index, embedding matrix and chunk list parallel with
row `i` of the index equal to row `i` of the matrix — holds of the initial
state and is preserved by `ingest`; and after every successful build the
index and the embedding matrix both have exactly as many rows as the
returned chunk count, which is the length of the stored chunk list.
(`retrieve` takes the state read-only in the model, so it cannot break the
invariant.) -/
theorem alignment_invariant (embed : Str → List ℚ) (st : PipelineState)
    (docs : List Doc) (h : aligned st) :
    aligned initState ∧
    aligned (process_pdfs embed st docs).1 ∧
    (∀ st2 n, process_pdfs embed st docs = (st2, Except.ok n) →
      st2.vector_store = some ((collect_chunks docs).map embed) ∧
      st2.chunk_embeddings = some ((collect_chunks docs).map embed) ∧
      ((collect_chunks docs).map embed).length = n ∧
      st2.chunks.length = n) := by
  refine ⟨Or.inl ⟨rfl, rfl, rfl⟩, ?_, ?_⟩
  · by_cases hc : (collect_chunks docs).length = 0
    · simpa [process_pdfs, hc] using h
    · simp only [process_pdfs, create_embeddings, build_vector_store,
        if_neg hc]
      exact Or.inr ⟨_, _, rfl, rfl, rfl, by simp⟩
  · intro st2 n heq
    by_cases hc : (collect_chunks docs).length = 0
    · simp [process_pdfs, hc] at heq
    · simp only [process_pdfs, create_embeddings, build_vector_store,
        if_neg hc, Prod.mk.injEq] at heq
      obtain ⟨rfl, hn⟩ := heq
      have hn2 : (collect_chunks docs).length = n := by
        simpa using congrArg (fun e => e.toOption.getD 0) hn
      exact ⟨rfl, rfl, by simp [hn2], by simp [hn2]⟩

/-- Witness for C9: starting from the aligned empty state, ingesting one
document keeps the state aligned, and the successful build stores an index
and matrix of exactly the returned chunk count. -/
theorem alignment_invariant_witness :
    aligned (process_pdfs (fun _ => [(0 : ℚ)]) initState
      [Except.ok "abc".data]).1 :=
  (alignment_invariant (fun _ => [(0 : ℚ)]) initState [Except.ok "abc".data]
    (Or.inl ⟨rfl, rfl, rfl⟩)).2.1

/-- C10: a failure inside `retrieve`'s `try` block — modelled by the query
embedding failing — is caught and yields the empty list for every state and
every `k`, so no exception reaches the caller; consequently context assembly
returns the very same "no relevant information" sentinel as it does for an
Empty corpus, and the caller cannot distinguish an internal retrieval
failure from an empty corpus. -/
theorem retrieve_swallows_failure (embedq : Str → Except Unit (List ℚ))
    (st : PipelineState) (query : Str) (k : Nat)
    (h : embedq query = Except.error ()) :
    retrieve_relevant_chunks embedq st query k = [] ∧
    get_context_for_query embedq st query = noInfoSentinel ∧
    get_context_for_query embedq initState query = noInfoSentinel := by
  refine ⟨retrieve_embed_error embedq st query k h, ?_, ?_⟩
  · rw [get_context_for_query,
      retrieve_embed_error embedq st query TOP_K_CHUNKS h]
    rfl
  · rw [get_context_for_query]
    rfl

/-- Witness for C10: a concretely failing embedder on a Ready one-chunk
corpus: retrieval returns `[]`, and the assembled context equals the
sentinel both there and on the empty corpus. -/
theorem retrieve_swallows_failure_witness :
    retrieve_relevant_chunks (fun _ => Except.error ()) sampleReady
      "q".data 3 = [] ∧
    get_context_for_query (fun _ => Except.error ()) sampleReady "q".data =
      noInfoSentinel ∧
    get_context_for_query (fun _ => Except.error ()) initState "q".data =
      noInfoSentinel :=
  retrieve_swallows_failure (fun _ => Except.error ()) sampleReady
    "q".data 3 rfl

end RAG
